import Mathlib

/-!
# Verification development for the `simtools` composite-distribution library

Shallow embedding of `src/JMCtools/common.py` and `src/JMCtools/distributions.py`.

Modelling conventions:
* Python exceptions are modelled by `Except PyErr`; the `PyErr` constructors name
  the error *kinds* of the spec's taxonomy (the Python code raises `ValueError`,
  `IndexError`, `TypeError`, `AttributeError` with various messages; both raises in
  `_check_parameters` and both raises in `submodel_logpdf` are the spec's
  FrozenStateViolation kind, `apply_f`'s raise is the StructureMismatch kind, and the
  mixture guard's raise is the MissingWeights kind).
* Numeric arrays are modelled over an abstract commutative ring `R`; `np.exp` is an
  abstract parameter `rexp : R → R` of the density functions.  Bulk data for the
  composite models is a two-dimensional row-major matrix `List (List R)`
  (realisation index × trailing variate axis); on such data `np.atleast_2d` is the
  identity.
* Nested list structures of arrays (the argument structure of `apply_f` and
  `get_data_slice`) are the mutual inductive `Nested`/`NList`.  A Python value is a
  `node` iff `isinstance(v, list)` holds.
* The recursion of `apply_f` is lock-step over several structures, so it is not
  structural in any single argument; it is defined with an explicit fuel parameter
  (first argument of `applyFAux`), and the public `apply_f` supplies a fuel that is
  provably sufficient (`2 * argsSize ts + 1`), so the fuel sentinel `PyErr.fuelError`
  is unreachable there.
* Python's in-place mutation is made explicit: the mutable override table of
  `JointDist` lives in a heap (`Heap R`) of tables addressed by `replRef`
  (attribute rebinding allocates a new cell, element assignment updates the cell in
  place), and `logpdf_list` returns the updated `JointDist` alongside its result
  (its frozen-path muting loop writes through the alias to the stored parameter
  list).
* Randomness (`np.random.choice`) and the sampling primitives of submodels are
  externalised: the categorical draws are an oracle argument `choices`, and each
  submodel carries its sampler as a function field.
-/

inductive PyErr where
  | frozenStateViolation
  | missingWeights
  | structureMismatch
  | indexError
  | attributeError
  | typeError
  | valueError
  | fuelError
  deriving DecidableEq, Repr

/-- A Python keyed parameter mapping (dict of parameter name to value). -/
abbrev Param (R : Type) := List (String × R)

/-- A two-dimensional data array: list of realisation rows, trailing axis inside. -/
abbrev SubData (R : Type) := List (List R)

mutual
/-- A nested list structure whose bottom-level objects have type `α`
(`common.py`: the untyped nested lists `apply_f` descends). -/
inductive Nested (α : Type u) : Type u where
  | leaf (a : α) : Nested α
  | node (ts : NList α) : Nested α

/-- The list spine of `Nested` (kept mutual so structural recursion works). -/
inductive NList (α : Type u) : Type u where
  | nil : NList α
  | cons (hd : Nested α) (tl : NList α) : NList α
end

def Nested.isNode : Nested α → Bool
  | .leaf _ => false
  | .node _ => true

def Nested.childrenOf : Nested α → NList α
  | .leaf _ => .nil
  | .node ts => ts

def Nested.leafVal : Nested α → Option α
  | .leaf a => some a
  | .node _ => none

def NList.isEmpty : NList α → Bool
  | .nil => true
  | .cons _ _ => false

def NList.headD (d : Nested α) : NList α → Nested α
  | .nil => d
  | .cons h _ => h

def NList.tail : NList α → NList α
  | .nil => .nil
  | .cons _ t => t

def NList.ofList : List (Nested α) → NList α
  | [] => .nil
  | t :: ts => .cons t (NList.ofList ts)

mutual
/-- Structural map over a nested structure (spec-side helper, used to state how a
range slice and a single-index slice relate leaf by leaf). -/
def Nested.mapN (h : α → β) : Nested α → Nested β
  | .leaf a => .leaf (h a)
  | .node ts => .node (NList.mapN h ts)

def NList.mapN (h : α → β) : NList α → NList β
  | .nil => .nil
  | .cons t ts => .cons (Nested.mapN h t) (NList.mapN h ts)
end

mutual
/-- Number of constructors of a nested structure; used only to compute a
sufficient fuel bound for the lock-step recursion. -/
def Nested.size : Nested α → Nat
  | .leaf _ => 1
  | .node ts => 1 + NList.size ts

def NList.size : NList α → Nat
  | .nil => 0
  | .cons t ts => Nested.size t + NList.size ts
end

/-- Total size of an argument tuple of nested structures. -/
def argsSize (ts : List (Nested α)) : Nat := (ts.map Nested.size).sum

/-- Total size of a tuple of children lists. -/
def colsSize (css : List (NList α)) : Nat := (css.map NList.size).sum

mutual
/-- `common.apply_f(f, *iters)`, fuelled.  `ts` is the tuple of arguments.  If all
arguments are lists, recurse element-wise in lock-step (Python's `map` over several
lists truncates at the shortest, which is what the column walk `applyColsAux` does);
if only some are lists, raise the StructureMismatch error; otherwise apply `f` to
the tuple of bottom-level objects (`f` itself may raise, as in Python).  Calling
with an empty tuple is Python's `map` with no iterables, a `TypeError`. -/
def applyFAux (f : List α → Except PyErr β) : Nat → List (Nested α) → Except PyErr (Nested β)
  | 0, _ => .error .fuelError
  | _ + 1, [] => .error .typeError
  | fuel + 1, ts@(_ :: _) =>
    if ts.all Nested.isNode then
      (applyColsAux f fuel (ts.map Nested.childrenOf)).map (fun rs => Nested.node (NList.ofList rs))
    else if ts.any Nested.isNode then .error .structureMismatch
    else (f (ts.filterMap Nested.leafVal)).map Nested.leaf

/-- The column walk of `apply_f`'s recursive case: apply `apply_f` to the tuple of
heads, then recurse on the tuple of tails, stopping when any list is exhausted
(Python `map` shortest-input truncation). -/
def applyColsAux (f : List α → Except PyErr β) : Nat → List (NList α) → Except PyErr (List (Nested β))
  | 0, _ => .error .fuelError
  | _ + 1, [] => .ok []
  | fuel + 1, css@(_ :: _) =>
    if css.any NList.isEmpty then .ok []
    else do
      let r ← applyFAux f fuel (css.map (fun cs => cs.headD (Nested.node .nil)))
      let rs ← applyColsAux f fuel (css.map (fun cs => cs.tail))
      .ok (r :: rs)
end

/-- `common.apply_f` with its provably sufficient fuel. -/
def apply_f (f : List α → Except PyErr β) (ts : List (Nested α)) : Except PyErr (Nested β) :=
  applyFAux f (2 * argsSize ts + 1) ts

mutual
/-- Spec-side predicate (fuelled like `applyFAux`): the lock-step recursion of
`apply_f` over `ts` reaches a node at which some of the corresponding inputs are
lists and others are not. -/
def hasMismatchAux : Nat → List (Nested α) → Bool
  | 0, _ => false
  | _ + 1, [] => false
  | fuel + 1, ts@(_ :: _) =>
    if ts.all Nested.isNode then hasMismatchColsAux fuel (ts.map Nested.childrenOf)
    else ts.any Nested.isNode

def hasMismatchColsAux : Nat → List (NList α) → Bool
  | 0, _ => false
  | _ + 1, [] => false
  | fuel + 1, css@(_ :: _) =>
    if css.any NList.isEmpty then false
    else hasMismatchAux fuel (css.map (fun cs => cs.headD (Nested.node .nil))) ||
      hasMismatchColsAux fuel (css.map (fun cs => cs.tail))
end

/-- The mismatch predicate at the same fuel `apply_f` uses. -/
def hasMismatch (ts : List (Nested α)) : Bool :=
  hasMismatchAux (2 * argsSize ts + 1) ts

mutual
/-- All bottom-level objects of a nested structure satisfy `P`. -/
inductive NestedAll (P : α → Prop) : Nested α → Prop where
  | leaf {a : α} : P a → NestedAll P (.leaf a)
  | node {ts : NList α} : NListAll P ts → NestedAll P (.node ts)

inductive NListAll (P : α → Prop) : NList α → Prop where
  | nil : NListAll P .nil
  | cons {t : Nested α} {ts : NList α} :
      NestedAll P t → NListAll P ts → NListAll P (.cons t ts)
end

/-- A numpy array: its shape tuple and its row-major flat contents. -/
structure NpArr where
  shape : List Nat
  flat : List ℚ

/-- `common.almost_flatten`: `A.reshape((-1, A.shape[-1]))`, i.e. the list of rows
of length `A.shape[-1]` (the shape is assumed non-empty, as any numpy array the
source ever passes here has at least one axis). -/
def almost_flatten (A : NpArr) : List (List ℚ) :=
  A.flat.toChunks (A.shape.getLastD 1)

/-- Result of `common.get_data_slice`: either a single realisation (each leaf a
row) or a numpy-style range slice (each leaf a list of rows), together with the
updated summary shape. -/
inductive SliceResult where
  | single (ds : Nested (List ℚ)) (summary : Nat × Nat)
  | range (ds : Nested (List (List ℚ))) (summary : Nat × Nat)

def headArr (args : List NpArr) : NpArr := args.headD ⟨[], []⟩

/-- `common.get_data_slice(x, i, j=None)`.  `x` is a pair (nested structure of
arrays, summary shape).  Single-index selection takes row `i` of each
almost-flattened leaf (an out-of-range `i` is numpy's `IndexError`); a range
takes rows `[i, j)` (numpy range slices truncate silently, like `drop`/`take`).
`j - i` is ℤ in Python; the claims only concern `i ≤ j`, where `Nat` subtraction
agrees. -/
def get_data_slice (x : Nested NpArr × List Nat) (i : Nat) (j : Option Nat) :
    Except PyErr SliceResult :=
  match j with
  | none =>
    (apply_f (fun args =>
        match (almost_flatten (headArr args))[i]? with
        | some row => .ok row
        | none => .error .indexError) [x.1]).map
      (fun ds => .single ds (1, x.2.getLastD 0))
  | some jj =>
    (apply_f (fun args =>
        .ok (((almost_flatten (headArr args)).drop i).take (jj - i))) [x.1]).map
      (fun ds => .range ds (jj - i, x.2.getLastD 0))

/-- Modelled from the spec: `JMCtools.common.split_data` is called by
`ListModel.split_data` (src/JMCtools/distributions.py line 85) but its definition
is not among the provided sources.  Following the spec's words, it cuts the last
axis of `samples` into consecutive per-submodel chunks sized by each submodel's
declared variate dimensionality, in submodel order. -/
def split_data (samples : List (List R)) (dims : List Nat) : List (List (List R)) :=
  match dims with
  | [] => []
  | d :: rest =>
    samples.map (fun row => row.take d) :: split_data (samples.map (fun row => row.drop d)) rest

/-- A submodel collaborator (scipy.stats-like object): which of
`logpdf`/`logpmf` attributes it has, its sampler, and — when it is callable to
freeze — the frozen copy it produces for a parameter mapping (a non-callable
object is Python's `TypeError`). -/
inductive Submodel (R : Type) : Type where
  | mk (logpdfFn logpmfFn : Option (SubData R → Param R → R))
       (rvsFn : Nat → Param R → List R)
       (freezeFn : Param R → Except PyErr (Submodel R))

def Submodel.logpdfFn : Submodel R → Option (SubData R → Param R → R)
  | .mk l _ _ _ => l

def Submodel.logpmfFn : Submodel R → Option (SubData R → Param R → R)
  | .mk _ l _ _ => l

def Submodel.rvsFn : Submodel R → Nat → Param R → List R
  | .mk _ _ r _ => r

def Submodel.freezeFn : Submodel R → Param R → Except PyErr (Submodel R)
  | .mk _ _ _ fr => fr

/-- A submodel entry as supplied to `ListModel.__init__`: either a bare
distribution-like object (`try: (m,d) = s except TypeError: m, d = s, 1`,
so implicit dimensionality 1) or a pair (object, variate dimensionality). -/
inductive SubEntry (R : Type) where
  | bare (m : Submodel R)
  | withDim (m : Submodel R) (d : Nat)

def SubEntry.model : SubEntry R → Submodel R
  | .bare m => m
  | .withDim m _ => m

def SubEntry.dim : SubEntry R → Nat
  | .bare _ => 1
  | .withDim _ d => d

/-- The `self.dims` list computed by `ListModel.__init__`. -/
def listmodel_dims (entries : List (SubEntry R)) : List Nat := entries.map SubEntry.dim

/-- The `self.submodels` list computed by `ListModel.__init__`. -/
def listmodel_submodels (entries : List (SubEntry R)) : List (Submodel R) :=
  entries.map SubEntry.model

/-- `ListModel.split_data(self, samples)`: delegates to `common.split_data` with
the declared per-submodel dimensionalities. -/
def listmodel_split_data (entries : List (SubEntry R)) (samples : List (List R)) :
    List (List (List R)) :=
  split_data samples (listmodel_dims entries)

/-- `ListModel._check_parameters(self, parameters)`: raise if frozen and
parameters were supplied, raise if unfrozen and none were, otherwise return the
effective parameters (the stored ones when frozen, the supplied ones when not).
Both raises are `ValueError`s of the spec's FrozenStateViolation kind.
The function is generic in the parameter payload (`MixtureModel` routes both its
weight list and its per-submodel parameter list through it). -/
def check_parameters (frozen : Bool) (stored p : Option A) : Except PyErr (Option A) :=
  if frozen && p.isSome then .error .frozenStateViolation
  else if !frozen && p.isNone then .error .frozenStateViolation
  else if frozen && p.isNone then .ok stored
  else .ok p

/-- `ListModel._freeze_submodels(self, parameters)`: freeze every submodel with its
parameter mapping (`zip` truncates at the shorter list, as in Python); illegal on
an already-frozen composite. -/
def freeze_submodels (frozen : Bool) (sms : List (Submodel R)) (plist : List (Param R)) :
    Except PyErr (List (Submodel R)) :=
  if frozen then .error .frozenStateViolation
  else (sms.zip plist).mapM (fun mp => mp.1.freezeFn mp.2)

/-- One override table of a `JointDist` (`submodel_logpdf_replacements`). -/
abbrev ReplTable (R : Type) := List (Option (SubData R → Param R → R))

/-- The heap of override tables.  Python's override table is a mutable list
object; sharing the object is sharing the heap reference. -/
abbrev Heap (R : Type) := List (ReplTable R)

structure JointDist (R : Type) where
  dims : List Nat
  submodels : List (Submodel R)
  parameters : Option (List (Param R))
  frozen : Bool
  replRef : Nat

/-- The override table a `JointDist` currently sees through its reference. -/
def getRepls (h : Heap R) (J : JointDist R) : ReplTable R := h.getD J.replRef []

/-- `JointDist.__init__`: derives `frozen` (parameters supplied ⇒ frozen, or the
explicit flag), computes `dims` from the entries, and either adopts the passed
override-table object (the same heap cell!) or allocates a fresh all-`None` table
of the right length. -/
def jointDistInit (h : Heap R) (entries : List (SubEntry R)) (params : Option (List (Param R)))
    (frozenFlag : Bool) (replRefArg : Option Nat) : JointDist R × Heap R :=
  let sms := listmodel_submodels entries
  let frozen := params.isSome || frozenFlag
  match replRefArg with
  | none =>
    (⟨listmodel_dims entries, sms, params, frozen, h.length⟩,
      h ++ [List.replicate sms.length none])
  | some r => (⟨listmodel_dims entries, sms, params, frozen, r⟩, h)

/-- `JointDist.__call__(self, parameters)` (freeze): validate, freeze all
submodels, and build the frozen copy through `JointDist.__init__` — passing the
frozen submodels as bare entries (so every dimensionality is re-derived as 1) and
passing `self.submodel_logpdf_replacements` itself, i.e. the same table object. -/
def JointDist.call (h : Heap R) (J : JointDist R) (pArg : Option (List (Param R))) :
    Except PyErr (JointDist R) :=
  if J.frozen then .error .frozenStateViolation
  else
    match check_parameters J.frozen J.parameters pArg with
    | .error e => .error e
    | .ok none => .error .typeError
    | .ok (some plist) =>
      (freeze_submodels J.frozen J.submodels plist).map (fun fsms =>
        (jointDistInit h (fsms.map SubEntry.bare) (some plist) false (some J.replRef)).1)

/-- `JointDist.submodel_logpdf(self, i, x, parameters={})`: the two guard raises
(frozen with non-empty parameters / unfrozen with empty ones) are
FrozenStateViolation-kind; then try `logpdf`, falling back to `logpmf` on
`AttributeError`.  Index `i` out of range is Python's `IndexError`. -/
def submodel_logpdf (frozen : Bool) (sms : List (Submodel R)) (i : Nat)
    (x : SubData R) (pars : Param R) : Except PyErr R :=
  if frozen && !pars.isEmpty then .error .frozenStateViolation
  else if !frozen && pars.isEmpty then .error .frozenStateViolation
  else
    match sms[i]? with
    | none => .error .indexError
    | some sm =>
      match sm.logpdfFn with
      | some g => .ok (g x pars)
      | none =>
        match sm.logpmfFn with
        | some g => .ok (g x pars)
        | none => .error .attributeError

/-- `JointDist.submodel_pdf(self, i, x, parameters)`: `np.exp` of the above. -/
def submodel_pdf (rexp : R → R) (frozen : Bool) (sms : List (Submodel R)) (i : Nat)
    (x : SubData R) (pars : Param R) : Except PyErr R :=
  (submodel_logpdf frozen sms i x pars).map rexp

/-- `np.atleast_2d` on our data model: bulk data is already a rows × trailing-axis
matrix, on which `np.atleast_2d` is the identity. -/
def atleast_2d (x : SubData R) : SubData R := x

/-- The zipped, enumerated tail `zip(x_split[1:], submodels[1:], replacements[1:],
parameters[1:])` that both `JointDist.pdf` and `JointDist.logpdf_list` loop over
(`zip` truncates at the shortest list). -/
def jointTail (x_split : List (SubData R)) (sms : List (Submodel R)) (repls : ReplTable R)
    (plist : List (Param R)) :
    List (Nat × (SubData R × (Submodel R × ((Option (SubData R → Param R → R)) × Param R)))) :=
  ((x_split.drop 1).zip ((sms.drop 1).zip ((repls.drop 1).zip (plist.drop 1)))).enum

/-- `JointDist.pdf(self, x, parameters=None)`: validate parameters, split the
data, then multiply component by component — `exp` of the override where one is
set, `submodel_pdf` otherwise.  Note it has no frozen-state muting of the
effective parameters (unlike `logpdf_list`): on a frozen composite the stored
per-submodel mappings are passed to `submodel_logpdf` as they are.
`parameters[0]` on `None` is Python's `TypeError`; `[0]` on an empty list is
`IndexError`. -/
def JointDist.pdf (rexp : R → R) [Mul R] (h : Heap R) (J : JointDist R) (x : SubData R)
    (pArg : Option (List (Param R))) : Except PyErr R :=
  match check_parameters J.frozen J.parameters pArg with
  | .error e => .error e
  | .ok psOpt =>
    let x_split := split_data x J.dims
    let repls := getRepls h J
    match repls[0]? with
    | none => .error .indexError
    | some alt0 =>
      match x_split[0]? with
      | none => .error .indexError
      | some x0 =>
        match psOpt with
        | none => .error .typeError
        | some plist =>
          match plist[0]? with
          | none => .error .indexError
          | some p0 =>
            let first : Except PyErr R :=
              match alt0 with
              | some g => .ok (rexp (g x0 p0))
              | none => submodel_pdf rexp J.frozen J.submodels 0 x0 p0
            match first with
            | .error e => .error e
            | .ok v0 =>
              (jointTail x_split J.submodels repls plist).foldlM
                (fun acc ie =>
                  match ie with
                  | (i, (xi, (_sm, (alt, pars)))) =>
                    match alt with
                    | some g => .ok (acc * rexp (g xi pars))
                    | none =>
                      (submodel_pdf rexp J.frozen J.submodels (i + 1) xi pars).map
                        (fun w => acc * w))
                v0

/-- The frozen-path muting loop of `JointDist.logpdf_list`:
`for i in range(n): if replacements[i] == None: parameters[i] = {}`.
Modelled totally: the source would raise `IndexError` if the table or the list
were shorter than `n`, which never happens for instances built by `__init__`. -/
def mute_parameters (plist : List (Param R)) (repls : ReplTable R) (n : Nat) :
    List (Param R) :=
  (List.range n).foldl
    (fun acc i => if (repls.getD i none).isNone then acc.set i [] else acc) plist

/-- `JointDist.logpdf_list(self, x, parameters=None)`: validate, split
`np.atleast_2d(x)`, replace a `None` parameter list by per-submodel empty
mappings, and — when frozen — mute the mappings of submodels without an override.
The muting loop writes in place through the alias: when the effective parameters
are the stored ones (frozen composite, no parameters supplied), `self.parameters`
itself is mutated, which is why the updated `JointDist` is returned alongside the
per-submodel log-density list. -/
def JointDist.logpdf_list (h : Heap R) (J : JointDist R) (x : SubData R)
    (pArg : Option (List (Param R))) : Except PyErr (List R) × JointDist R :=
  match check_parameters J.frozen J.parameters pArg with
  | .error e => (.error e, J)
  | .ok psOpt =>
    let x_split := split_data (atleast_2d x) J.dims
    let repls := getRepls h J
    let plist0 : List (Param R) :=
      match psOpt with
      | none => List.replicate J.submodels.length []
      | some l => l
    let plist := if J.frozen then mute_parameters plist0 repls J.submodels.length else plist0
    let J' :=
      if J.frozen && pArg.isNone && J.parameters.isSome then
        { J with parameters := some plist }
      else J
    let res : Except PyErr (List R) :=
      match repls[0]? with
      | none => .error .indexError
      | some alt0 =>
        match x_split[0]? with
        | none => .error .indexError
        | some x0 =>
          match plist[0]? with
          | none => .error .indexError
          | some p0 =>
            let first : Except PyErr R :=
              match alt0 with
              | some g => .ok (g x0 p0)
              | none => submodel_logpdf J.frozen J.submodels 0 x0 p0
            match first with
            | .error e => .error e
            | .ok v0 =>
              (jointTail x_split J.submodels repls plist).foldlM
                (fun acc ie =>
                  match ie with
                  | (i, (xi, (_sm, (alt, pars)))) =>
                    match alt with
                    | some g => .ok (acc ++ [g xi pars])
                    | none =>
                      (submodel_logpdf J.frozen J.submodels (i + 1) xi pars).map
                        (fun w => acc ++ [w]))
                [v0]
    (res, J')

/-- `JointDist.logpdf(self, x, parameters=None)`: sum of `logpdf_list` (the
`_logpdf = 0; for l in ...: _logpdf += l` loop), threading the state update
performed by `logpdf_list`. -/
def JointDist.logpdf [Add R] [OfNat R 0] (h : Heap R) (J : JointDist R) (x : SubData R)
    (pArg : Option (List (Param R))) : Except PyErr R × JointDist R :=
  let rp := JointDist.logpdf_list h J x pArg
  (rp.1.map (fun l => l.foldl (· + ·) 0), rp.2)

/-- `JointDist.set_submodel_logpdf(self, i, f)`: element assignment into the
override-table object — an in-place update of the shared heap cell. -/
def set_submodel_logpdf (h : Heap R) (J : JointDist R) (i : Nat)
    (f : Option (SubData R → Param R → R)) : Heap R :=
  h.set J.replRef ((h.getD J.replRef []).set i f)

/-- `JointDist.set_logpdf(self, listf)`: attribute rebinding — this `JointDist`
now refers to the (freshly allocated) object `listf`; other composites keep their
reference. -/
def set_logpdf (h : Heap R) (J : JointDist R) (listf : ReplTable R) :
    Heap R × JointDist R :=
  (h ++ [listf], { J with replRef := h.length })

/-- `MixtureModel`: `__init__(self, submodels, weights=None, *args, **kwargs)`
stores the weights as the ListModel parameters and drops all other keyword
arguments, so a `MixtureModel` is frozen exactly when its stored weights are
non-null (`MixtureModel.frozen`). -/
structure MixtureModel (R : Type) where
  submodels : List (Submodel R)
  weights : Option (List R)

def MixtureModel.frozen (m : MixtureModel R) : Bool := m.weights.isSome

/-- The `try: logpdf except AttributeError: logpmf` density call shared by
`MixtureModel.pdf`'s terms. -/
def mixDensityE (sm : Submodel R) (x : SubData R) (p : Param R) : Except PyErr R :=
  match sm.logpdfFn with
  | some g => .ok (g x p)
  | none =>
    match sm.logpmfFn with
    | some g => .ok (g x p)
    | none => .error .attributeError

/-- `MixtureModel.pdf(self, x, weights=None, parameters=None)`: check the
parameters (result discarded by the source, so the stored value routed through
the first call is irrelevant to its raise/no-raise behaviour — we pass `none` at
the parameter-list type), resolve the weights through the same check, guard
against null weights, default the parameters to empty mappings, then accumulate
the weighted sum of exponentiated submodel log-densities, all evaluated at the
same unsplit `x`. -/
def MixtureModel.pdf (rexp : R → R) [CommRing R] (m : MixtureModel R) (x : SubData R)
    (wArg : Option (List R)) (pArg : Option (List (Param R))) : Except PyErr R :=
  match check_parameters m.frozen (none : Option (List (Param R))) pArg with
  | .error e => .error e
  | .ok _ =>
    match check_parameters m.frozen m.weights wArg with
    | .error e => .error e
    | .ok wOpt =>
      match wOpt with
      | none => .error .missingWeights
      | some ws =>
        let plist : List (Param R) :=
          match pArg with
          | none => List.replicate m.submodels.length []
          | some l => l
        match ws[0]? with
        | none => .error .indexError
        | some w0 =>
          match m.submodels[0]? with
          | none => .error .indexError
          | some sm0 =>
            match plist[0]? with
            | none => .error .indexError
            | some p0 =>
              match mixDensityE sm0 x p0 with
              | .error e => .error e
              | .ok d0 =>
                ((ws.drop 1).zip ((m.submodels.drop 1).zip (plist.drop 1))).foldlM
                  (fun acc wsp =>
                    match wsp with
                    | (w, (sm, p)) => (mixDensityE sm x p).map (fun d => acc + w * rexp d))
                  (w0 * rexp d0)

/-- `MixtureModel.rvs(self, size, weights=None, parameters=None)`: same checks and
weights guard as `pdf`; the categorical component choices drawn by
`np.random.choice` are externalised as the oracle `choices`; every submodel is
sampled at full size, then `np.choose` selects, per output position `k`, entry `k`
of the sample of the chosen submodel. -/
def MixtureModel.rvs (m : MixtureModel R) (size : Nat) (wArg : Option (List R))
    (pArg : Option (List (Param R))) (choices : List Nat) : Except PyErr (List R) :=
  match check_parameters m.frozen (none : Option (List (Param R))) pArg with
  | .error e => .error e
  | .ok _ =>
    match check_parameters m.frozen m.weights wArg with
    | .error e => .error e
    | .ok wOpt =>
      match wOpt with
      | none => .error .missingWeights
      | some _ws =>
        let plist : List (Param R) :=
          match pArg with
          | none => List.replicate m.submodels.length []
          | some l => l
        let samples := (m.submodels.zip plist).map (fun sp => sp.1.rvsFn size sp.2)
        (List.range size).mapM (fun k =>
          match choices[k]? with
          | none => .error .indexError
          | some c =>
            match samples[c]? with
            | none => .error .indexError
            | some row =>
              match row[k]? with
              | none => .error .indexError
              | some v => .ok v)

/-- Insertion into a Python dict modelled as an association list: an existing key
keeps its position and gets the new value, a new key is appended. -/
def dict_insert (m : List (String × V)) (k : String) (v : V) : List (String × V) :=
  if m.any (fun kv => kv.1 = k) then m.map (fun kv => if kv.1 = k then (k, v) else kv)
  else m ++ [(k, v)]

/-- Split a character sequence on a (non-empty) separator sequence — an
executable model of Python's `str.split(sep)` (Lean's `String.splitOn` is
extensionally the same but does not reduce in the kernel). -/
def splitSeqAux (sep : List Char) : Nat → List Char → List (List Char)
  | 0, cs => [cs]
  | fuel + 1, cs =>
    if sep ≠ [] ∧ cs.take sep.length = sep then
      [] :: splitSeqAux sep fuel (cs.drop sep.length)
    else
      match cs with
      | [] => [[]]
      | c :: rest =>
        match splitSeqAux sep fuel rest with
        | [] => [[c]]
        | r :: rs => (c :: r) :: rs

/-- Python's `s.split(sep)`. -/
def pySplit (s sep : String) : List String :=
  (splitSeqAux sep.data s.data.length s.data).map String.mk

/-- The renaming-map construction in `TransDist.__init__`: each instruction
`"a -> b"` is split on `" -> "` into exactly two parts (anything else is the
re-raised `ValueError`) and stored as `renaming[a] = b`. -/
def build_renaming (items : List String) : Except PyErr (List (String × String)) :=
  items.foldlM
    (fun acc s =>
      match pySplit s " -> " with
      | [k, v] => .ok (dict_insert acc k v)
      | _ => .error .valueError)
    []

/-- `TransDist.get_orig_args(self, **parameters)`: each incoming parameter name
that is a key of the renaming map is replaced by its mapped value (the map applied
in the forward, key-to-value direction), then the transform function is applied to
the renamed mapping. -/
def get_orig_args (ren : List (String × String))
    (transform : List (String × V) → List (String × V))
    (parameters : List (String × V)) : List (String × V) :=
  transform (parameters.foldl
    (fun acc kv =>
      match ren.lookup kv.1 with
      | some k2 => dict_insert acc k2 kv.2
      | none => dict_insert acc kv.1 kv.2)
    [])

/-- Modelled from the spec's words, for comparison (refinement check for the
claim about `get_orig_args`): "renames incoming parameters back to the underlying
distribution's native names (reverse of the rename map)" — i.e. an incoming name
matching the *value* side of a rule `"a -> b"` is replaced by the rule's key. -/
def get_orig_args_specversion (ren : List (String × String))
    (transform : List (String × V) → List (String × V))
    (parameters : List (String × V)) : List (String × V) :=
  transform (parameters.foldl
    (fun acc kv =>
      match (ren.find? (fun ab => ab.2 = kv.1)).map Prod.fst with
      | some k2 => dict_insert acc k2 kv.2
      | none => dict_insert acc kv.1 kv.2)
    [])

/-- Spec-side plain-map form of the forward renaming (used to state what
`get_orig_args` does without the dict-building fold). -/
def rename_forward (ren : List (String × String)) (parameters : List (String × V)) :
    List (String × V) :=
  parameters.map (fun kv => ((ren.lookup kv.1).getD kv.1, kv.2))

/-- `TransDist.logpdf(self, x, **parameters)`: translate the parameters via
`get_orig_args`, delegate to the underlying distribution's `logpdf`. -/
def TransDist.logpdf (orig_logpdf : X → List (String × V) → R)
    (ren : List (String × String))
    (transform : List (String × V) → List (String × V)) (x : X)
    (parameters : List (String × V)) : R :=
  orig_logpdf x (get_orig_args ren transform parameters)

/-- `TransDist.logpmf`: same, for the mass-function form. -/
def TransDist.logpmf (orig_logpmf : X → List (String × V) → R)
    (ren : List (String × String))
    (transform : List (String × V) → List (String × V)) (x : X)
    (parameters : List (String × V)) : R :=
  orig_logpmf x (get_orig_args ren transform parameters)

/-- `TransDist.rvs(self, size, **parameters)`: delegate sampling with the
translated arguments. -/
def TransDist.rvs (orig_rvs : Nat → List (String × V) → S)
    (ren : List (String × String))
    (transform : List (String × V) → List (String × V)) (size : Nat)
    (parameters : List (String × V)) : S :=
  orig_rvs size (get_orig_args ren transform parameters)

/-- Spec-side total form of the `try pdf / except pmf` density of a mixture term
(used to state what `MixtureModel.pdf` computes; the `0` branch is unreachable
for submodels that expose at least one of the two attributes). -/
def mixDensity [Zero R] (sm : Submodel R) (x : SubData R) (p : Param R) : R :=
  match sm.logpdfFn with
  | some g => g x p
  | none =>
    match sm.logpmfFn with
    | some g => g x p
    | none => 0

/-- A frozen scipy-like submodel: fixed log-density 7, not callable to freeze. -/
def exFrozenSub : Submodel ℚ :=
  .mk (some (fun _ _ => 7)) none (fun n _ => List.replicate n 0) (fun _ => .error .typeError)

/-- An unfrozen scipy-like submodel; freezing it yields `exFrozenSub`. -/
def exSubmodel : Submodel ℚ :=
  .mk (some (fun _ _ => 0)) none (fun n _ => List.replicate n 0) (fun _ => .ok exFrozenSub)

/-- A substitute log-density used as an override in examples. -/
def exAlt : SubData ℚ → Param ℚ → ℚ := fun _ _ => 100

/-- A heap holding one freshly allocated override table `[None]`. -/
def exHeap0 : Heap ℚ := [[none]]

/-- A frozen one-submodel `JointDist` with stored parameters `[{'a': 1}]`
(as built by `JointDist([sub], parameters=[{'a': 1}])` on a pre-frozen `sub`). -/
def exFrozenJD : JointDist ℚ := ⟨[1], [exFrozenSub], some [[("a", 1)]], true, 0⟩

/-- An unfrozen one-submodel `JointDist` (as built by `JointDist([sub])`). -/
def exUnfrozenJD : JointDist ℚ := ⟨[1], [exSubmodel], none, false, 0⟩

/-- The frozen copy `exUnfrozenJD({'m': 0})` returns — note it holds the same
override-table reference (0) as `exUnfrozenJD`. -/
def exFrozenCopy : JointDist ℚ := ⟨[1], [exFrozenSub], some [[("m", 0)]], true, 0⟩

/-- An unfrozen one-component mixture. -/
def exMixture : MixtureModel ℚ := ⟨[exFrozenSub], none⟩

/-- A concrete 2×2 array. -/
def exArr : NpArr := ⟨[2, 2], [1, 2, 3, 4]⟩

/-- A nested structure holding the single leaf array `exArr`. -/
def exNested : Nested NpArr := .node (.cons (.leaf exArr) .nil)

/-! ## Helper lemmas -/

theorem check_parameters_error_eq (frozen : Bool) (stored p : Option A) (e : PyErr)
    (h : check_parameters frozen stored p = .error e) : e = .frozenStateViolation := by
  cases frozen <;> cases p <;> simp_all [check_parameters]

theorem check_parameters_ok_none (frozen : Bool) (stored p : Option A)
    (h : check_parameters frozen stored p = .ok none) : frozen = true ∧ stored = none := by
  unfold check_parameters at h
  cases frozen <;> cases p <;> simp_all

theorem check_parameters_unfrozen_some (stored : Option A) (q : A) :
    check_parameters false stored (some q) = .ok (some q) := by
  simp [check_parameters]

theorem check_parameters_frozen_none (stored : Option A) :
    check_parameters true stored none = .ok stored := by
  simp [check_parameters]

/-! ## C5: the frozen/unfrozen validation contract of `_check_parameters` -/

/-- C5: `_check_parameters` raises a FrozenStateViolation-kind error exactly when
the composite is frozen and `p` is non-null, or unfrozen and `p` is null; in all
other cases it returns the effective parameters — the stored ones when frozen
(and `p` null), the supplied `p` when unfrozen. -/
theorem check_parameters_frozen_contract (A : Type) (frozen : Bool) (stored p : Option A) :
    ((∃ e, check_parameters frozen stored p = .error e) ↔
      ((frozen = true ∧ p ≠ none) ∨ (frozen = false ∧ p = none)))
    ∧ (∀ e, check_parameters frozen stored p = .error e → e = .frozenStateViolation)
    ∧ (frozen = true → p = none → check_parameters frozen stored p = .ok stored)
    ∧ (frozen = false → ∀ q, p = some q → check_parameters frozen stored p = .ok (some q)) := by
  refine ⟨?_, fun e he => check_parameters_error_eq frozen stored p e he, ?_, ?_⟩
  · cases frozen <;> cases p <;> simp [check_parameters]
  · rintro rfl rfl; exact check_parameters_frozen_none stored
  · rintro rfl q rfl; exact check_parameters_unfrozen_some stored q

theorem check_parameters_frozen_contract_witness :
    check_parameters false (some (3 : ℚ)) (some 5) = .ok (some 5) :=
  (check_parameters_frozen_contract ℚ false (some 3) (some 5)).2.2.2 rfl 5 rfl

/-! ## C1: `split_data` cuts the trailing axis into the declared chunks -/

theorem split_data_length (samples : List (List R)) (dims : List Nat) :
    (split_data samples dims).length = dims.length := by
  induction dims generalizing samples with
  | nil => rfl
  | cons d rest ih => simpa [split_data] using ih (samples.map (fun row => row.drop d))

theorem split_data_getD (samples : List (List R)) (dims : List Nat) (k : Nat)
    (hk : k < dims.length) :
    (split_data samples dims).getD k [] =
      samples.map (fun row => (row.drop ((dims.take k).sum)).take (dims.getD k 0)) := by
  induction dims generalizing samples k with
  | nil => exact absurd hk (by simp)
  | cons d rest ih =>
    cases k with
    | zero => simp [split_data]
    | succ k' =>
      have hk' : k' < rest.length := by simpa using hk
      have := ih (samples.map (fun row => row.drop d)) k' hk'
      simp only [split_data, List.getD_cons_succ, this, List.map_map]
      refine List.map_congr_left (fun row _ => ?_)
      simp [List.drop_drop, Nat.add_comm]

/-- C1: for a composite model whose submodel entries declare variate
dimensionalities `dims` (1 for a bare entry), `split_data(x)` returns one
sub-array per submodel, the `k`-th being the consecutive chunk of `x`'s last
axis of size `dims[k]` starting after the first `d1 + ... + dk` columns, in
submodel order. -/
theorem listmodel_split_data_chunks (R : Type) (entries : List (SubEntry R))
    (x : List (List R)) :
    (listmodel_split_data entries x).length = entries.length ∧
    ∀ k, k < entries.length →
      (listmodel_split_data entries x).getD k [] =
        x.map (fun row =>
          (row.drop (((listmodel_dims entries).take k).sum)).take
            ((listmodel_dims entries).getD k 0)) := by
  constructor
  · simpa [listmodel_split_data, listmodel_dims] using
      split_data_length x (listmodel_dims entries)
  · intro k hk
    exact split_data_getD x (listmodel_dims entries) k (by simpa [listmodel_dims] using hk)

theorem listmodel_split_data_chunks_witness :
    (listmodel_split_data [SubEntry.bare exSubmodel, SubEntry.withDim exSubmodel 2]
        [[(1 : ℚ), 2, 3], [4, 5, 6]]).getD 1 [] = [[2, 3], [5, 6]] := by
  have h := (listmodel_split_data_chunks ℚ
    [SubEntry.bare exSubmodel, SubEntry.withDim exSubmodel 2]
    [[(1 : ℚ), 2, 3], [4, 5, 6]]).2 1 (by decide)
  simpa using h

/-! ## C6: the direction of `TransDist`'s rename map -/

theorem dict_insert_of_not_mem (acc : List (String × V)) (k : String) (v : V)
    (h : ∀ kv ∈ acc, kv.1 ≠ k) : dict_insert acc k v = acc ++ [(k, v)] := by
  have hany : acc.any (fun kv => kv.1 = k) = false := by
    simp only [List.any_eq_false, decide_eq_true_eq]
    exact h
  simp [dict_insert, hany]

theorem foldl_dict_insert_eq_map (p : List (String × V)) (F : (String × V) → String)
    (acc : List (String × V))
    (h : (acc.map Prod.fst ++ p.map F).Nodup) :
    p.foldl (fun a kv => dict_insert a (F kv) kv.2) acc =
      acc ++ p.map (fun kv => (F kv, kv.2)) := by
  induction p generalizing acc with
  | nil => simp
  | cons kv p' ih =>
    have hnotin : (F kv) ∉ acc.map Prod.fst := by
      intro hmem
      rw [List.nodup_append] at h
      exact h.2.2 hmem (by simp)
    have hk : ∀ x ∈ acc, x.1 ≠ F kv := by
      intro x hx hEq
      exact hnotin (by rw [← hEq]; exact List.mem_map_of_mem Prod.fst hx)
    have h' : ((acc ++ [(F kv, kv.2)]).map Prod.fst ++ (p'.map F)).Nodup := by
      simpa [List.append_assoc] using h
    rw [List.foldl_cons, dict_insert_of_not_mem acc (F kv) kv.2 hk, ih _ h']
    simp

theorem get_orig_args_eq_rename_forward (ren : List (String × String))
    (t : List (String × V) → List (String × V)) (p : List (String × V))
    (h : (p.map (fun kv => (ren.lookup kv.1).getD kv.1)).Nodup) :
    get_orig_args ren t p = t (rename_forward ren p) := by
  unfold get_orig_args rename_forward
  congr 1
  have hstep : (fun (a : List (String × V)) (kv : String × V) =>
      match ren.lookup kv.1 with
      | some k2 => dict_insert a k2 kv.2
      | none => dict_insert a kv.1 kv.2) =
      fun a kv => dict_insert a ((ren.lookup kv.1).getD kv.1) kv.2 := by
    funext a kv; cases ren.lookup kv.1 <;> rfl
  rw [hstep,
    foldl_dict_insert_eq_map p (fun kv => (ren.lookup kv.1).getD kv.1) [] (by simpa using h)]
  simp

/-- C6 counterexample: with the single rename rule `"a -> b"` and the identity
transform, calling with the parameter mapping `{a: 5}` makes `get_orig_args`
produce `{b: 5}` — the rename map applied in the forward (key-to-value)
direction — whereas the claim's reading (rules are original-name → exposed-name
and the reverse map is applied to incoming names) would leave `{a: 5}`
unchanged.  The two disagree on this input. -/
theorem get_orig_args_direction_counterexample :
    build_renaming ["a -> b"] = .ok [("a", "b")] ∧
    get_orig_args [("a", "b")] id [("a", (5 : ℚ))] = [("b", 5)] ∧
    get_orig_args_specversion [("a", "b")] id [("a", (5 : ℚ))] = [("a", 5)] ∧
    get_orig_args [("a", "b")] id [("a", (5 : ℚ))] ≠
      get_orig_args_specversion [("a", "b")] id [("a", (5 : ℚ))] :=
  ⟨rfl, rfl, rfl, by decide⟩

/-- C6 (amended): a rename rule `"a -> b"` maps the *exposed* parameter name `a`
to the name `b` the transform function (and, under the identity transform, the
underlying distribution) uses, and `get_orig_args` applies the rename map in the
*forward* direction — each incoming exposed name `a` becomes `b` — before
applying the transform `t`; `logpdf`/`logpmf`/`rvs` then delegate to the
underlying distribution with exactly `t(rename(p))`.  (Stated for parameter
mappings whose renamed key lists are duplicate-free, as Python dicts are.) -/
theorem get_orig_args_forward_rename (V X R S : Type) (ren : List (String × String))
    (t : List (String × V) → List (String × V)) (p : List (String × V))
    (h : (p.map (fun kv => (ren.lookup kv.1).getD kv.1)).Nodup) :
    get_orig_args ren t p = t (rename_forward ren p) ∧
    (∀ (orig : X → List (String × V) → R) (x : X),
      TransDist.logpdf orig ren t x p = orig x (t (rename_forward ren p))) ∧
    (∀ (orig : X → List (String × V) → R) (x : X),
      TransDist.logpmf orig ren t x p = orig x (t (rename_forward ren p))) ∧
    (∀ (orig : Nat → List (String × V) → S) (n : Nat),
      TransDist.rvs orig ren t n p = orig n (t (rename_forward ren p))) := by
  have key := get_orig_args_eq_rename_forward ren t p h
  exact ⟨key,
    fun orig x => by simp [TransDist.logpdf, key],
    fun orig x => by simp [TransDist.logpmf, key],
    fun orig n => by simp [TransDist.rvs, key]⟩

theorem get_orig_args_forward_rename_witness :
    get_orig_args [("sigma", "variance")] id [("sigma", (2 : ℚ))] =
      id (rename_forward [("sigma", "variance")] [("sigma", (2 : ℚ))]) :=
  (get_orig_args_forward_rename ℚ Unit Unit Unit [("sigma", "variance")] id
    [("sigma", (2 : ℚ))] (by decide)).1

/-! ## C2: frozen `pdf` versus `exp(logpdf)` -/

/-- C2 (code-bug evaluation): `JointDist.pdf` lacks the frozen-state muting that
`logpdf_list` performs, so on a frozen composite with a non-empty stored
parameter mapping and no override it raises the FrozenStateViolation-kind error
(inside `submodel_logpdf`), while `logpdf` evaluates — hence `pdf ≠ exp(logpdf)`
there.  Evaluated at the concrete frozen composite `exFrozenJD` (stored
parameters `[{'a': 1}]`, submodel log-density constantly 7, `np.exp` stood in by
`q ↦ q + 1`). -/
theorem frozen_pdf_raises_but_logpdf_evaluates :
    JointDist.pdf (fun q => q + 1) exHeap0 exFrozenJD [[0]] none =
      .error .frozenStateViolation ∧
    (JointDist.logpdf exHeap0 exFrozenJD [[0]] none).1 = .ok 7 ∧
    Except.map (fun q => q + 1) (JointDist.logpdf exHeap0 exFrozenJD [[0]] none).1 =
      .ok 8 := by
  have h1 : (JointDist.logpdf_list exHeap0 exFrozenJD [[0]] none).1 = .ok [7] := rfl
  have h2 : (JointDist.logpdf exHeap0 exFrozenJD [[0]] none).1 = .ok 7 := by
    simp only [JointDist.logpdf, h1, Except.map]
    norm_num
  refine ⟨rfl, h2, ?_⟩
  rw [h2]
  show Except.ok ((7 : ℚ) + 1) = .ok 8
  norm_num

/-! ## C3: frozen `logpdf_list` mutates the stored parameters -/

theorem mute_parameters_length (plist : List (Param R)) (repls : ReplTable R) (n : Nat) :
    (mute_parameters plist repls n).length = plist.length := by
  unfold mute_parameters
  induction n with
  | zero => rfl
  | succ n ih =>
    rw [List.range_succ, List.foldl_append, List.foldl_cons, List.foldl_nil]
    split
    · rw [List.length_set]; exact ih
    · exact ih

theorem mute_parameters_getD_of_ge (plist : List (Param R)) (repls : ReplTable R)
    (n k : Nat) (hk : n ≤ k) :
    (mute_parameters plist repls n).getD k [] = plist.getD k [] := by
  unfold mute_parameters
  induction n with
  | zero => rfl
  | succ n ih =>
    rw [List.range_succ, List.foldl_append, List.foldl_cons, List.foldl_nil]
    have hne : n ≠ k := by omega
    split
    · rw [List.getD_eq_getElem?_getD, List.getElem?_set_ne hne,
        ← List.getD_eq_getElem?_getD]
      exact ih (by omega)
    · exact ih (by omega)

theorem mute_parameters_getD_of_lt (plist : List (Param R)) (repls : ReplTable R)
    (n k : Nat) (hk : k < n) (hkl : k < plist.length) :
    (mute_parameters plist repls n).getD k [] =
      if ((repls.getD k none).isNone) then [] else plist.getD k [] := by
  induction n with
  | zero => omega
  | succ n ih =>
    show (mute_parameters plist repls (n + 1)).getD k [] = _
    unfold mute_parameters
    rw [List.range_succ, List.foldl_append, List.foldl_cons, List.foldl_nil]
    rcases Nat.lt_or_ge k n with hlt | hge
    · have := ih hlt
      unfold mute_parameters at this
      split
      · rw [List.getD_eq_getElem?_getD, List.getElem?_set_ne (by omega : n ≠ k),
          ← List.getD_eq_getElem?_getD]
        exact this
      · exact this
    · have hkn : k = n := by omega
      subst hkn
      have hbase : (mute_parameters plist repls k).getD k [] = plist.getD k [] :=
        mute_parameters_getD_of_ge plist repls k k (le_refl k)
      unfold mute_parameters at hbase
      have hlen : (List.foldl
          (fun acc i => if (repls.getD i none).isNone then acc.set i [] else acc)
          plist (List.range k)).length = plist.length := by
        have := mute_parameters_length plist repls k
        unfold mute_parameters at this
        exact this
      split
      · rw [List.getD_eq_getElem?_getD, List.getElem?_set_self (by omega)]
        rfl
      · rw [hbase]

/-- C3 counterexample: calling `logpdf_list` (with no arguments) on the frozen
composite `exFrozenJD` succeeds, but afterwards the stored parameter list has
been mutated in place — the freeze-time `[{'a': 1}]` has become `[{}]` — because
the muting loop writes through the alias returned by `_check_parameters`. -/
theorem frozen_logpdf_list_mutates_stored_parameters :
    (JointDist.logpdf_list exHeap0 exFrozenJD [[0]] none).1 = .ok [7] ∧
    (JointDist.logpdf_list exHeap0 exFrozenJD [[0]] none).2.parameters = some [[]] ∧
    exFrozenJD.parameters = some [[("a", 1)]] ∧
    (JointDist.logpdf_list exHeap0 exFrozenJD [[0]] none).2.parameters ≠
      exFrozenJD.parameters := by
  refine ⟨rfl, rfl, rfl, ?_⟩
  have h1 : (JointDist.logpdf_list exHeap0 exFrozenJD [[0]] none).2.parameters =
      some [[]] := rfl
  have h2 : exFrozenJD.parameters = some [[("a", (1 : ℚ))]] := rfl
  rw [h1, h2]
  decide

/-- C3 (amended): the stored parameters of a frozen composite are *not* left
intact by `logpdf_list` (hence `logpdf`): a frozen evaluation with no supplied
parameters replaces, in place, the stored mapping of every submodel without an
override by the empty mapping, while overridden slots keep their freeze-time
mapping.  (`pdf` and `rvs` perform no such store; `pdf` never reaches a store on
this path and `rvs` builds a fresh empty-mapping list.) -/
theorem frozen_logpdf_list_mutes_stored (R : Type) (h : Heap R) (J : JointDist R)
    (x : SubData R) (ps : List (Param R)) (hf : J.frozen = true)
    (hp : J.parameters = some ps) (hlen : ps.length = J.submodels.length) :
    ∃ qs, (JointDist.logpdf_list h J x none).2.parameters = some qs ∧
      qs.length = ps.length ∧
      ∀ k, k < ps.length →
        qs.getD k [] =
          if ((getRepls h J).getD k none).isNone then [] else ps.getD k [] := by
  refine ⟨mute_parameters ps (getRepls h J) J.submodels.length, ?_, ?_, ?_⟩
  · simp only [JointDist.logpdf_list, hf, hp, check_parameters_frozen_none,
      Option.isNone_none, Option.isSome_some, Bool.and_self, if_pos]
  · rw [mute_parameters_length]
  · intro k hk
    exact mute_parameters_getD_of_lt ps (getRepls h J) J.submodels.length k
      (by omega) hk

theorem frozen_logpdf_list_mutes_stored_witness :
    ∃ qs, (JointDist.logpdf_list exHeap0 exFrozenJD [[0]] none).2.parameters = some qs ∧
      qs.length = ([[("a", (1 : ℚ))]] : List (Param ℚ)).length ∧
      ∀ k, k < ([[("a", (1 : ℚ))]] : List (Param ℚ)).length →
        qs.getD k [] =
          if ((getRepls exHeap0 exFrozenJD).getD k none).isNone then []
          else ([[("a", (1 : ℚ))]] : List (Param ℚ)).getD k [] :=
  frozen_logpdf_list_mutes_stored ℚ exHeap0 exFrozenJD [[0]] [[("a", 1)]] rfl rfl rfl

/-! ## C4: freezing shares the override table object -/

theorem call_replRef (h : Heap R) (J F : JointDist R) (p : Option (List (Param R)))
    (hc : JointDist.call h J p = .ok F) : F.replRef = J.replRef := by
  unfold JointDist.call at hc
  split at hc
  · exact absurd hc (by simp)
  · split at hc
    · exact absurd hc (by simp)
    · exact absurd hc (by simp)
    · rename_i plist heq
      cases hfz : freeze_submodels J.frozen J.submodels plist with
      | error e => rw [hfz] at hc; exact absurd hc (by simp [Except.map])
      | ok fsms =>
        rw [hfz] at hc
        simp only [Except.map] at hc
        injection hc with hF
        rw [← hF]
        rfl

theorem logpdf_list_heap_congr (h1 h2 : Heap R) (J : JointDist R)
    (hrep : getRepls h1 J = getRepls h2 J) (x : SubData R)
    (p : Option (List (Param R))) :
    JointDist.logpdf_list h1 J x p = JointDist.logpdf_list h2 J x p := by
  unfold JointDist.logpdf_list
  rw [hrep]

/-- C4 counterexample: freeze the unfrozen `exUnfrozenJD` into `exFrozenCopy`,
then mutate the parent's override table via `set_submodel_logpdf`: the frozen
copy's `logpdf` output changes from 7 to 100, because `__call__` passed the very
same override-table object to the copy. -/
theorem freeze_shares_override_table_counterexample :
    JointDist.call exHeap0 exUnfrozenJD (some [[("m", 0)]]) = .ok exFrozenCopy ∧
    (JointDist.logpdf exHeap0 exFrozenCopy [[0]] none).1 = .ok 7 ∧
    (JointDist.logpdf (set_submodel_logpdf exHeap0 exUnfrozenJD 0 (some exAlt))
        exFrozenCopy [[0]] none).1 = .ok 100 ∧
    (Except.ok (7 : ℚ) : Except PyErr ℚ) ≠ .ok 100 := by
  have ha : (JointDist.logpdf_list exHeap0 exFrozenCopy [[0]] none).1 = .ok [7] := rfl
  have hb : (JointDist.logpdf_list (set_submodel_logpdf exHeap0 exUnfrozenJD 0 (some exAlt))
      exFrozenCopy [[0]] none).1 = .ok [100] := rfl
  refine ⟨rfl, ?_, ?_, ?_⟩
  · simp only [JointDist.logpdf, ha, Except.map]
    norm_num
  · simp only [JointDist.logpdf, hb, Except.map]
    norm_num
  · intro hEq
    exact absurd (Except.ok.inj hEq) (by norm_num)

/-- C4 (amended): the frozen copy `F = J(p)` is a new instance, but its override
table is the *same object* as `J`'s: wholesale replacement `J.set_logpdf(listf)`
rebinds `J`'s attribute and leaves `F`'s table and all of `F`'s `logpdf` outputs
unchanged, whereas the in-place `J.set_submodel_logpdf(i, f)` updates the shared
table, so `F`'s effective override table changes with it (and `F`'s outputs can
change, as the counterexample shows). -/
theorem freeze_override_table_sharing (R : Type) [Add R] [OfNat R 0] (h : Heap R)
    (J F : JointDist R) (p : Option (List (Param R)))
    (hc : JointDist.call h J p = .ok F) (href : J.replRef < h.length) :
    (∀ listf, getRepls (set_logpdf h J listf).1 F = getRepls h F ∧
      ∀ x q, JointDist.logpdf (set_logpdf h J listf).1 F x q =
        JointDist.logpdf h F x q) ∧
    (∀ i f, getRepls (set_submodel_logpdf h J i f) F = (getRepls h F).set i f) := by
  have hrr : F.replRef = J.replRef := call_replRef h J F p hc
  constructor
  · intro listf
    have hg : getRepls (set_logpdf h J listf).1 F = getRepls h F := by
      unfold getRepls set_logpdf
      simp only
      rw [hrr]
      exact List.getD_append h [listf] _ _ href
    refine ⟨hg, fun x q => ?_⟩
    unfold JointDist.logpdf
    rw [logpdf_list_heap_congr _ _ _ hg x q]
  · intro i f
    unfold getRepls set_submodel_logpdf
    rw [hrr, List.getD_eq_getElem?_getD, List.getElem?_set_self href]
    rfl

theorem freeze_override_table_sharing_witness :
    getRepls (set_logpdf exHeap0 exUnfrozenJD []).1 exFrozenCopy =
      getRepls exHeap0 exFrozenCopy :=
  ((freeze_override_table_sharing ℚ exHeap0 exUnfrozenJD exFrozenCopy
      (some [[("m", 0)]]) rfl (by decide)).1 []).1

/-! ## C7: the mixture density is the weighted sum at the same `x` -/

theorem mixDensityE_ok [Zero R] (sm : Submodel R) (x : SubData R) (p : Param R)
    (h : sm.logpdfFn.isSome ∨ sm.logpmfFn.isSome) :
    mixDensityE sm x p = .ok (mixDensity sm x p) := by
  cases hl : sm.logpdfFn with
  | some g => simp [mixDensityE, mixDensity, hl]
  | none =>
    cases hm : sm.logpmfFn with
    | some g => simp [mixDensityE, mixDensity, hl, hm]
    | none => rw [hl, hm] at h; simp at h

theorem mixDensityE_error_eq (sm : Submodel R) (x : SubData R) (p : Param R) (e : PyErr)
    (h : mixDensityE sm x p = .error e) : e = .attributeError := by
  unfold mixDensityE at h
  cases hl : sm.logpdfFn with
  | some g => rw [hl] at h; simp at h
  | none =>
    cases hm : sm.logpmfFn with
    | some g => rw [hl, hm] at h; simp at h
    | none => rw [hl, hm] at h; simp at h; exact h.symm

theorem mix_foldlM_sum (R : Type) [CommRing R] (rexp : R → R) (x : SubData R)
    (l : List (R × (Submodel R × Param R))) (a : R)
    (hd : ∀ e ∈ l, e.2.1.logpdfFn.isSome ∨ e.2.1.logpmfFn.isSome) :
    l.foldlM (fun acc wsp => (mixDensityE wsp.2.1 x wsp.2.2).map
        (fun d => acc + wsp.1 * rexp d)) a =
      .ok (a + (l.map (fun wsp => wsp.1 * rexp (mixDensity wsp.2.1 x wsp.2.2))).sum) := by
  induction l generalizing a with
  | nil => simp only [List.foldlM_nil, List.map_nil, List.sum_nil, add_zero]; rfl
  | cons e l' ih =>
    rw [List.foldlM_cons, mixDensityE_ok e.2.1 x e.2.2 (hd e (List.mem_cons_self e l'))]
    show (l'.foldlM _ (a + e.1 * rexp (mixDensity e.2.1 x e.2.2))) = _
    rw [ih (a + e.1 * rexp (mixDensity e.2.1 x e.2.2))
      (fun e' he' => hd e' (List.mem_cons_of_mem e he'))]
    rw [List.map_cons, List.sum_cons, add_assoc]

/-- C7: for an unfrozen `MixtureModel` with submodels `m1..mn`, non-null weights
`w1..wn` and non-null per-submodel parameter mappings `p1..pn` (each submodel
exposing `logpdf` or, failing that, `logpmf`), `pdf(x, weights, parameters)` is
the weighted sum over `i` of `wi * exp(density_i(x, pi))` with every submodel evaluated
at the same, unsplit `x`. -/
theorem mixture_pdf_weighted_sum (R : Type) [CommRing R] (rexp : R → R)
    (m : MixtureModel R) (x : SubData R) (ws : List R) (ps : List (Param R))
    (hunf : m.weights = none) (hne : m.submodels ≠ [])
    (hlw : ws.length = m.submodels.length) (hlp : ps.length = m.submodels.length)
    (hd : ∀ sm ∈ m.submodels, sm.logpdfFn.isSome ∨ sm.logpmfFn.isSome) :
    MixtureModel.pdf rexp m x (some ws) (some ps) =
      .ok (((ws.zip (m.submodels.zip ps)).map
        (fun wsp => wsp.1 * rexp (mixDensity wsp.2.1 x wsp.2.2))).sum) := by
  have hfr : m.frozen = false := by simp [MixtureModel.frozen, hunf]
  obtain ⟨sm0, sms', hsm⟩ := List.exists_cons_of_ne_nil hne
  cases ws with
  | nil => rw [hsm] at hlw; simp at hlw
  | cons w0 ws' =>
    cases ps with
    | nil => rw [hsm] at hlp; simp at hlp
    | cons p0 ps' =>
      unfold MixtureModel.pdf
      rw [hfr, hunf, check_parameters_unfrozen_some, check_parameters_unfrozen_some]
      simp only [hsm, List.getElem?_cons_zero,
        mixDensityE_ok sm0 x p0 (hd sm0 (hsm ▸ List.mem_cons_self sm0 sms'))]
      have hd' : ∀ e ∈ (ws'.zip (sms'.zip ps')),
          e.2.1.logpdfFn.isSome ∨ e.2.1.logpmfFn.isSome := by
        intro e he
        have hmem := List.of_mem_zip (List.of_mem_zip he).2
        exact hd e.2.1 (hsm ▸ List.mem_cons_of_mem sm0 hmem.1)
      rw [List.drop_one, List.drop_one, List.drop_one, List.tail_cons, List.tail_cons,
        List.tail_cons, mix_foldlM_sum R rexp x (ws'.zip (sms'.zip ps')) _ hd']
      rw [List.zip_cons_cons, List.zip_cons_cons, List.map_cons, List.sum_cons]

theorem mixture_pdf_weighted_sum_witness :
    MixtureModel.pdf (fun q => q + 1) exMixture [[0]] (some [2]) (some [[("a", 1)]]) =
      .ok ((([(2 : ℚ)].zip (exMixture.submodels.zip [[("a", (1 : ℚ))]])).map
        (fun wsp => wsp.1 * ((fun q => q + 1) (mixDensity wsp.2.1 [[0]] wsp.2.2)))).sum) :=
  mixture_pdf_weighted_sum ℚ (fun q => q + 1) exMixture [[0]] [2] [[("a", 1)]]
    rfl (List.cons_ne_nil _ _) rfl rfl
    (by intro sm hm
        rw [show exMixture.submodels = [exFrozenSub] from rfl, List.mem_singleton] at hm
        subst hm
        exact Or.inl rfl)

/-! ## C10: the missing-weights guard is unreachable -/

theorem foldlM_ne_error_of_step (l : List γ) (g : A → γ → Except PyErr A) (a : A)
    (e : PyErr) (hstep : ∀ a' c, g a' c ≠ .error e) : l.foldlM g a ≠ .error e := by
  induction l generalizing a with
  | nil => intro h; exact Except.noConfusion h
  | cons c l' ih =>
    rw [List.foldlM_cons]
    cases hg : g a c with
    | error e' =>
      intro hcontr
      have : e' = e := Except.error.inj hcontr
      exact hstep a c (by rw [hg, this])
    | ok a' => exact ih a'

theorem mapM_ne_error_of_step (l : List γ) (g : γ → Except PyErr δ) (e : PyErr)
    (hstep : ∀ c, g c ≠ .error e) : l.mapM g ≠ .error e := by
  induction l with
  | nil => intro h; exact Except.noConfusion h
  | cons c l' ih =>
    rw [List.mapM_cons]
    cases hg : g c with
    | error e' =>
      intro hcontr
      have : e' = e := Except.error.inj hcontr
      exact hstep c (by rw [hg, this])
    | ok v =>
      cases hm : l'.mapM g with
      | error e'' =>
        intro hcontr
        have : e'' = e := Except.error.inj hcontr
        exact ih (by rw [hm, this])
      | ok vs => intro hcontr; exact Except.noConfusion hcontr

/-- C10: in `MixtureModel.pdf` and `MixtureModel.rvs` the dedicated
"No mixing weights supplied!" guard is unreachable: either one of the preceding
`_check_parameters` calls has already raised (unfrozen model with null weights or
null parameters, or frozen model with an explicit argument), or the model is
frozen and `_check_parameters` substitutes the stored weights, which are non-null
by construction of `MixtureModel.__init__` — so neither method can return the
MissingWeights error. -/
theorem mixture_missing_weights_guard_unreachable (R : Type) [CommRing R]
    (rexp : R → R) (m : MixtureModel R) (x : SubData R) (wArg : Option (List R))
    (pArg : Option (List (Param R))) (size : Nat) (choices : List Nat) :
    MixtureModel.pdf rexp m x wArg pArg ≠ .error .missingWeights ∧
    MixtureModel.rvs m size wArg pArg choices ≠ .error .missingWeights := by
  constructor
  · unfold MixtureModel.pdf
    cases hc1 : check_parameters m.frozen (none : Option (List (Param R))) pArg with
    | error e =>
      have he := check_parameters_error_eq _ _ _ _ hc1
      simp [he]
    | ok o1 =>
      cases hc2 : check_parameters m.frozen m.weights wArg with
      | error e =>
        have he := check_parameters_error_eq _ _ _ _ hc2
        simp [he]
      | ok wOpt =>
        cases wOpt with
        | none =>
          obtain ⟨hf, hw⟩ := check_parameters_ok_none _ _ _ hc2
          rw [MixtureModel.frozen, hw] at hf
          simp at hf
        | some ws =>
          simp only
          intro hcontr
          split at hcontr
          · simp at hcontr
          · split at hcontr
            · simp at hcontr
            · split at hcontr
              · simp at hcontr
              · split at hcontr
                · rename_i e heq
                  have h1 := mixDensityE_error_eq _ _ _ _ heq
                  have h2 := Except.error.inj hcontr
                  rw [h2] at h1
                  exact absurd h1 (by simp)
                · refine foldlM_ne_error_of_step _ _ _ _ (fun a' c => ?_) hcontr
                  cases hmd : mixDensityE c.2.1 x c.2.2 with
                  | error e' =>
                    intro h
                    simp only [Except.map] at h
                    have h2 := Except.error.inj h
                    have h1 := mixDensityE_error_eq _ _ _ _ hmd
                    rw [h2] at h1
                    exact absurd h1 (by simp)
                  | ok d =>
                    intro h
                    simp only [Except.map] at h
                    exact Except.noConfusion h
  · unfold MixtureModel.rvs
    cases hc1 : check_parameters m.frozen (none : Option (List (Param R))) pArg with
    | error e =>
      have he := check_parameters_error_eq _ _ _ _ hc1
      simp [he]
    | ok o1 =>
      cases hc2 : check_parameters m.frozen m.weights wArg with
      | error e =>
        have he := check_parameters_error_eq _ _ _ _ hc2
        simp [he]
      | ok wOpt =>
        cases wOpt with
        | none =>
          obtain ⟨hf, hw⟩ := check_parameters_ok_none _ _ _ hc2
          rw [MixtureModel.frozen, hw] at hf
          simp at hf
        | some ws =>
          simp only
          intro hcontr
          refine mapM_ne_error_of_step _ _ _ (fun k => ?_) hcontr
          intro h
          split at h
          · simp at h
          · split at h
            · simp at h
            · split at h
              · simp at h
              · simp at h

/-! ## C8: mismatched nested structures make `apply_f` fail -/

theorem Nested.size_pos (t : Nested α) : 0 < t.size := by
  cases t <;> simp [Nested.size]

theorem colsSize_children (ts : List (Nested α)) (h : ts.all Nested.isNode = true) :
    colsSize (ts.map Nested.childrenOf) + ts.length = argsSize ts := by
  induction ts with
  | nil => rfl
  | cons t ts' ih =>
    simp only [List.all_cons, Bool.and_eq_true] at h
    cases t with
    | leaf a => simp [Nested.isNode] at h
    | node cts =>
      have ih' := ih h.2
      simp only [colsSize, argsSize, List.map_cons, List.sum_cons, Nested.childrenOf,
        Nested.size, List.length_cons] at ih' ⊢
      omega

theorem argsSize_heads_le (css : List (NList α)) (h : css.any NList.isEmpty = false) :
    argsSize (css.map (fun cs => cs.headD (Nested.node .nil))) ≤ colsSize css := by
  induction css with
  | nil => simp [argsSize, colsSize]
  | cons cs css' ih =>
    cases cs with
    | nil => simp [List.any_cons, NList.isEmpty] at h
    | cons t cs'' =>
      simp only [List.any_cons, NList.isEmpty, Bool.false_or] at h
      have ih' := ih h
      simp only [argsSize, colsSize, List.map_cons, List.sum_cons, NList.headD,
        NList.size] at ih' ⊢
      omega

theorem NList.size_tail_le (cs : NList α) : cs.tail.size ≤ cs.size := by
  cases cs with
  | nil => exact le_refl _
  | cons t cs'' =>
    simp only [NList.tail, NList.size]
    exact Nat.le_add_left _ _

theorem colsSize_tails_le (css : List (NList α)) :
    colsSize (css.map NList.tail) ≤ colsSize css := by
  induction css with
  | nil => exact le_refl _
  | cons cs css' ih =>
    simp only [colsSize, List.map_cons, List.sum_cons] at ih ⊢
    have := NList.size_tail_le cs
    omega

theorem colsSize_tails_lt (cs : NList α) (css' : List (NList α))
    (h : (cs :: css').any NList.isEmpty = false) :
    colsSize ((cs :: css').map NList.tail) < colsSize (cs :: css') := by
  cases cs with
  | nil => simp [List.any_cons, NList.isEmpty] at h
  | cons t cs'' =>
    have h1 := Nested.size_pos t
    have h2 := colsSize_tails_le css'
    simp only [List.map_cons, colsSize, List.sum_cons, NList.tail, NList.size] at h2 ⊢
    omega

mutual
theorem applyFAux_ok_or_mismatch (f : List α → Except PyErr β)
    (htot : ∀ l, ∃ v, f l = .ok v) (fuel : Nat) (ts : List (Nested α))
    (hne : ts ≠ []) (hle : 2 * argsSize ts ≤ fuel) :
    (∃ v, applyFAux f fuel ts = .ok v) ∨
      applyFAux f fuel ts = .error .structureMismatch := by
  cases fuel with
  | zero =>
    exfalso
    cases ts with
    | nil => exact hne rfl
    | cons t ts' =>
      have := Nested.size_pos t
      simp only [argsSize, List.map_cons, List.sum_cons] at hle
      omega
  | succ fuel =>
    cases ts with
    | nil => exact absurd rfl hne
    | cons t ts' =>
      simp only [applyFAux]
      by_cases hall : (t :: ts').all Nested.isNode = true
      · rw [if_pos hall]
        have hcc := colsSize_children (t :: ts') hall
        simp only [List.length_cons] at hcc
        have hbound : 2 * colsSize ((t :: ts').map Nested.childrenOf) + 1 ≤ fuel := by
          simp only [argsSize, colsSize, List.map_cons, List.sum_cons,
            List.length_cons] at hle hcc ⊢
          omega
        rcases applyColsAux_ok_or_mismatch f htot fuel
            ((t :: ts').map Nested.childrenOf) hbound with ⟨vs, hvs⟩ | herr
        · exact Or.inl ⟨Nested.node (NList.ofList vs), by rw [hvs]; rfl⟩
        · exact Or.inr (by rw [herr]; rfl)
      · rw [if_neg hall]
        by_cases hany : (t :: ts').any Nested.isNode = true
        · exact Or.inr (by rw [if_pos hany])
        · obtain ⟨v, hv⟩ := htot ((t :: ts').filterMap Nested.leafVal)
          exact Or.inl ⟨Nested.leaf v, by rw [if_neg hany, hv]; rfl⟩

theorem applyColsAux_ok_or_mismatch (f : List α → Except PyErr β)
    (htot : ∀ l, ∃ v, f l = .ok v) (fuel : Nat) (css : List (NList α))
    (hle : 2 * colsSize css + 1 ≤ fuel) :
    (∃ vs, applyColsAux f fuel css = .ok vs) ∨
      applyColsAux f fuel css = .error .structureMismatch := by
  cases fuel with
  | zero => omega
  | succ fuel =>
    cases css with
    | nil => exact Or.inl ⟨[], rfl⟩
    | cons cs css' =>
      simp only [applyColsAux]
      by_cases hemp : (cs :: css').any NList.isEmpty = true
      · rw [if_pos hemp]
        exact Or.inl ⟨[], rfl⟩
      · rw [if_neg hemp]
        have hempf : (cs :: css').any NList.isEmpty = false :=
          Bool.eq_false_iff.mpr hemp
        have hb1 : 2 * argsSize ((cs :: css').map (fun c => c.headD (Nested.node .nil)))
            ≤ fuel := by
          have := argsSize_heads_le (cs :: css') hempf
          omega
        have hb2 : 2 * colsSize ((cs :: css').map NList.tail) + 1 ≤ fuel := by
          have := colsSize_tails_lt cs css' hempf
          omega
        rcases applyFAux_ok_or_mismatch f htot fuel
            ((cs :: css').map (fun c => c.headD (Nested.node .nil)))
            (by simp) hb1 with ⟨v, hv⟩ | herr
        · rcases applyColsAux_ok_or_mismatch f htot fuel
              ((cs :: css').map NList.tail) hb2 with ⟨vs, hvs⟩ | herr2
          · exact Or.inl ⟨v :: vs, by rw [hv, hvs]; rfl⟩
          · exact Or.inr (by rw [hv, herr2]; rfl)
        · exact Or.inr (by rw [herr]; rfl)
end

mutual
theorem applyFAux_mismatch (f : List α → Except PyErr β)
    (htot : ∀ l, ∃ v, f l = .ok v) (fuel : Nat) (ts : List (Nested α))
    (hle : 2 * argsSize ts ≤ fuel) (hm : hasMismatchAux fuel ts = true) :
    applyFAux f fuel ts = .error .structureMismatch := by
  cases fuel with
  | zero => simp [hasMismatchAux] at hm
  | succ fuel =>
    cases ts with
    | nil => simp [hasMismatchAux] at hm
    | cons t ts' =>
      simp only [hasMismatchAux] at hm
      simp only [applyFAux]
      by_cases hall : (t :: ts').all Nested.isNode = true
      · rw [if_pos hall] at hm
        rw [if_pos hall]
        have hcc := colsSize_children (t :: ts') hall
        simp only [List.length_cons] at hcc
        have hbound : 2 * colsSize ((t :: ts').map Nested.childrenOf) + 1 ≤ fuel := by
          simp only [argsSize, colsSize, List.map_cons, List.sum_cons,
            List.length_cons] at hle hcc ⊢
          omega
        rw [applyColsAux_mismatch f htot fuel ((t :: ts').map Nested.childrenOf)
          hbound hm]
        rfl
      · rw [if_neg hall] at hm
        rw [if_neg hall, if_pos hm]

theorem applyColsAux_mismatch (f : List α → Except PyErr β)
    (htot : ∀ l, ∃ v, f l = .ok v) (fuel : Nat) (css : List (NList α))
    (hle : 2 * colsSize css + 1 ≤ fuel) (hm : hasMismatchColsAux fuel css = true) :
    applyColsAux f fuel css = .error .structureMismatch := by
  cases fuel with
  | zero => simp [hasMismatchColsAux] at hm
  | succ fuel =>
    cases css with
    | nil => simp [hasMismatchColsAux] at hm
    | cons cs css' =>
      simp only [hasMismatchColsAux] at hm
      simp only [applyColsAux]
      by_cases hemp : (cs :: css').any NList.isEmpty = true
      · rw [if_pos hemp] at hm
        simp at hm
      · rw [if_neg hemp] at hm
        rw [if_neg hemp]
        have hempf : (cs :: css').any NList.isEmpty = false :=
          Bool.eq_false_iff.mpr hemp
        have hb1 : 2 * argsSize ((cs :: css').map (fun c => c.headD (Nested.node .nil)))
            ≤ fuel := by
          have := argsSize_heads_le (cs :: css') hempf
          omega
        have hb2 : 2 * colsSize ((cs :: css').map NList.tail) + 1 ≤ fuel := by
          have := colsSize_tails_lt cs css' hempf
          omega
        rw [Bool.or_eq_true] at hm
        rcases hm with hm | hm
        · rw [applyFAux_mismatch f htot fuel
            ((cs :: css').map (fun c => c.headD (Nested.node .nil))) hb1 hm]
          rfl
        · rcases applyFAux_ok_or_mismatch f htot fuel
              ((cs :: css').map (fun c => c.headD (Nested.node .nil)))
              (by simp) hb1 with ⟨v, hv⟩ | herr
          · rw [hv, applyColsAux_mismatch f htot fuel ((cs :: css').map NList.tail)
              hb2 hm]
            rfl
          · rw [herr]
            rfl
end

/-- C8: whenever the lock-step recursion of the N-ary structural map over the
input structures reaches a node at which some of the corresponding inputs are
lists and others are not (`hasMismatch`), `apply_f` fails with the
StructureMismatch error instead of producing a result (stated for applied
functions `f` that do not themselves raise). -/
theorem apply_f_mismatch_error (α β : Type) (f : List α → Except PyErr β)
    (htot : ∀ l, ∃ v, f l = .ok v) (ts : List (Nested α))
    (hm : hasMismatch ts = true) :
    apply_f f ts = .error .structureMismatch :=
  applyFAux_mismatch f htot (2 * argsSize ts + 1) ts (by omega) hm

theorem apply_f_mismatch_error_witness :
    hasMismatch [Nested.node (.cons (.leaf (0 : ℚ)) .nil),
        Nested.node (.cons (.node .nil) .nil)] = true ∧
    apply_f (fun l => .ok l.length)
        [Nested.node (.cons (.leaf (0 : ℚ)) .nil),
          Nested.node (.cons (.node .nil) .nil)] = .error .structureMismatch :=
  ⟨rfl, apply_f_mismatch_error ℚ Nat (fun l => .ok l.length)
    (fun l => ⟨l.length, rfl⟩) _ rfl⟩

/-! ## C9: single-index slices agree with the sole row of `[i, i+1)` slices -/

theorem ofList_map (g : α → β) (rs : List (Nested α)) :
    NList.ofList (rs.map (Nested.mapN g)) = NList.mapN g (NList.ofList rs) := by
  induction rs with
  | nil => rfl
  | cons r rs' ih => simp only [List.map_cons, NList.ofList, NList.mapN, ih]

mutual
theorem applyFAux_singleton_rel (P : α → Prop)
    (f1 : List α → Except PyErr γ1) (f2 : List α → Except PyErr γ2)
    (hmap : γ2 → γ1) (hG : ∀ a, P a → f1 [a] = (f2 [a]).map hmap)
    (fuel : Nat) (t : Nested α) (ht : NestedAll P t) (hle : 2 * t.size ≤ fuel) :
    applyFAux f1 fuel [t] = (applyFAux f2 fuel [t]).map (Nested.mapN hmap) := by
  cases fuel with
  | zero =>
    exfalso
    have := Nested.size_pos t
    omega
  | succ fuel =>
    cases t with
    | leaf a =>
      have e1 : applyFAux f1 (fuel + 1) [Nested.leaf a] = (f1 [a]).map Nested.leaf := rfl
      have e2 : applyFAux f2 (fuel + 1) [Nested.leaf a] = (f2 [a]).map Nested.leaf := rfl
      cases ht with
      | leaf hPa =>
        rw [e1, e2, hG a hPa]
        cases f2 [a] <;> rfl
    | node ts =>
      have e1 : applyFAux f1 (fuel + 1) [Nested.node ts] =
          (applyColsAux f1 fuel [ts]).map (fun rs => Nested.node (NList.ofList rs)) := rfl
      have e2 : applyFAux f2 (fuel + 1) [Nested.node ts] =
          (applyColsAux f2 fuel [ts]).map (fun rs => Nested.node (NList.ofList rs)) := rfl
      cases ht with
      | node hts =>
        have hle' : 2 * ts.size + 1 ≤ fuel := by
          simp only [Nested.size] at hle
          omega
        rw [e1, e2, applyColsAux_singleton_rel P f1 f2 hmap hG fuel ts hts hle']
        cases applyColsAux f2 fuel [ts] with
        | error e => rfl
        | ok rs =>
          show Except.ok (Nested.node (NList.ofList (rs.map (Nested.mapN hmap)))) = _
          rw [ofList_map]
          rfl

theorem applyColsAux_singleton_rel (P : α → Prop)
    (f1 : List α → Except PyErr γ1) (f2 : List α → Except PyErr γ2)
    (hmap : γ2 → γ1) (hG : ∀ a, P a → f1 [a] = (f2 [a]).map hmap)
    (fuel : Nat) (cs : NList α) (hc : NListAll P cs) (hle : 2 * cs.size + 1 ≤ fuel) :
    applyColsAux f1 fuel [cs] =
      (applyColsAux f2 fuel [cs]).map (List.map (Nested.mapN hmap)) := by
  cases fuel with
  | zero => omega
  | succ fuel =>
    cases cs with
    | nil => rfl
    | cons t cs' =>
      have e1 : applyColsAux f1 (fuel + 1) [NList.cons t cs'] =
          (do
            let r ← applyFAux f1 fuel [t]
            let rs ← applyColsAux f1 fuel [cs']
            (.ok (r :: rs) : Except PyErr (List (Nested γ1)))) := rfl
      have e2 : applyColsAux f2 (fuel + 1) [NList.cons t cs'] =
          (do
            let r ← applyFAux f2 fuel [t]
            let rs ← applyColsAux f2 fuel [cs']
            (.ok (r :: rs) : Except PyErr (List (Nested γ2)))) := rfl
      cases hc with
      | cons hT hCs' =>
        have hpos := Nested.size_pos t
        have hb1 : 2 * t.size ≤ fuel := by
          simp only [NList.size] at hle
          omega
        have hb2 : 2 * cs'.size + 1 ≤ fuel := by
          simp only [NList.size] at hle
          omega
        rw [e1, e2, applyFAux_singleton_rel P f1 f2 hmap hG fuel t hT hb1,
          applyColsAux_singleton_rel P f1 f2 hmap hG fuel cs' hCs' hb2]
        cases applyFAux f2 fuel [t] with
        | error e => rfl
        | ok v =>
          cases applyColsAux f2 fuel [cs'] with
          | error e => rfl
          | ok rs => rfl
end

mutual
theorem applyFAux_singleton_total (f : List α → Except PyErr γ)
    (hft : ∀ a, ∃ v, f [a] = .ok v) (fuel : Nat) (t : Nested α)
    (hle : 2 * t.size ≤ fuel) :
    ∃ w, applyFAux f fuel [t] = .ok w := by
  cases fuel with
  | zero =>
    exfalso
    have := Nested.size_pos t
    omega
  | succ fuel =>
    cases t with
    | leaf a =>
      obtain ⟨v, hv⟩ := hft a
      exact ⟨Nested.leaf v,
        by show (f [a]).map Nested.leaf = _; rw [hv]; rfl⟩
    | node ts =>
      have hle' : 2 * ts.size + 1 ≤ fuel := by
        simp only [Nested.size] at hle
        omega
      obtain ⟨vs, hvs⟩ := applyColsAux_singleton_total f hft fuel ts hle'
      exact ⟨Nested.node (NList.ofList vs),
        by show (applyColsAux f fuel [ts]).map _ = _; rw [hvs]; rfl⟩

theorem applyColsAux_singleton_total (f : List α → Except PyErr γ)
    (hft : ∀ a, ∃ v, f [a] = .ok v) (fuel : Nat) (cs : NList α)
    (hle : 2 * cs.size + 1 ≤ fuel) :
    ∃ ws, applyColsAux f fuel [cs] = .ok ws := by
  cases fuel with
  | zero => omega
  | succ fuel =>
    cases cs with
    | nil => exact ⟨[], rfl⟩
    | cons t cs' =>
      have hpos := Nested.size_pos t
      have hb1 : 2 * t.size ≤ fuel := by
        simp only [NList.size] at hle
        omega
      have hb2 : 2 * cs'.size + 1 ≤ fuel := by
        simp only [NList.size] at hle
        omega
      obtain ⟨v, hv⟩ := applyFAux_singleton_total f hft fuel t hb1
      obtain ⟨vs, hvs⟩ := applyColsAux_singleton_total f hft fuel cs' hb2
      refine ⟨v :: vs, ?_⟩
      show (do
        let r ← applyFAux f fuel [t]
        let rs ← applyColsAux f fuel [cs']
        (.ok (r :: rs) : Except PyErr (List (Nested γ)))) = _
      rw [hv, hvs]
      rfl
end

/-- C9: on any nested structure of arrays with summary shape `sz`, and any index
`i` valid at every leaf, the single-index slice `get_data_slice(x, i)` has at
each leaf exactly the sole row of the range slice `get_data_slice(x, i, i+1)`,
and the returned summary counts are `1` for single-index selection and `j - i`
for a range `[i, j)`. -/
theorem get_data_slice_single_vs_range (data : Nested NpArr) (sz : List Nat)
    (i jn : Nat) (hij : i ≤ jn)
    (hvalid : NestedAll (fun A => i < (almost_flatten A).length) data) :
    (∃ r, get_data_slice (data, sz) i (some (i + 1)) =
        .ok (.range r (1, sz.getLastD 0)) ∧
      get_data_slice (data, sz) i none =
        .ok (.single (r.mapN (fun rows => rows.headD [])) (1, sz.getLastD 0))) ∧
    (∃ r2, get_data_slice (data, sz) i (some jn) =
      .ok (.range r2 (jn - i, sz.getLastD 0))) := by
  have hA : argsSize [data] = data.size := by simp [argsSize]
  have h1 : i + 1 - i = 1 := by omega
  obtain ⟨r, hr⟩ := applyFAux_singleton_total
    (fun args => Except.ok (((almost_flatten (headArr args)).drop i).take (i + 1 - i)))
    (fun A => ⟨_, rfl⟩) (2 * argsSize [data] + 1) data (by omega)
  obtain ⟨r2, hr2⟩ := applyFAux_singleton_total
    (fun args => Except.ok (((almost_flatten (headArr args)).drop i).take (jn - i)))
    (fun A => ⟨_, rfl⟩) (2 * argsSize [data] + 1) data (by omega)
  have hG : ∀ A : NpArr, i < (almost_flatten A).length →
      (fun args => match (almost_flatten (headArr args))[i]? with
        | some row => (Except.ok row : Except PyErr (List ℚ))
        | none => Except.error PyErr.indexError) [A] =
      ((fun args =>
          Except.ok (((almost_flatten (headArr args)).drop i).take (i + 1 - i))) [A]).map
        (fun rows => rows.headD []) := by
    intro A hval
    show (match (almost_flatten A)[i]? with
        | some row => (Except.ok row : Except PyErr (List ℚ))
        | none => Except.error PyErr.indexError) =
      (Except.ok (((almost_flatten A).drop i).take (i + 1 - i))).map
        (fun rows => rows.headD [])
    rw [List.getElem?_eq_getElem hval, h1, List.drop_eq_getElem_cons hval]
    rfl
  have hrel := applyFAux_singleton_rel (fun A => i < (almost_flatten A).length)
    (fun args => match (almost_flatten (headArr args))[i]? with
      | some row => (Except.ok row : Except PyErr (List ℚ))
      | none => Except.error PyErr.indexError)
    (fun args => Except.ok (((almost_flatten (headArr args)).drop i).take (i + 1 - i)))
    (fun rows => rows.headD []) hG (2 * argsSize [data] + 1) data hvalid (by omega)
  refine ⟨⟨r, ?_, ?_⟩, ⟨r2, ?_⟩⟩
  · show (applyFAux
        (fun args => Except.ok (((almost_flatten (headArr args)).drop i).take (i + 1 - i)))
        (2 * argsSize [data] + 1) [data]).map
        (fun ds => SliceResult.range ds (i + 1 - i, sz.getLastD 0)) = _
    rw [hr, h1]
    rfl
  · show (applyFAux
        (fun args => match (almost_flatten (headArr args))[i]? with
          | some row => (Except.ok row : Except PyErr (List ℚ))
          | none => Except.error PyErr.indexError)
        (2 * argsSize [data] + 1) [data]).map
        (fun ds => SliceResult.single ds (1, sz.getLastD 0)) = _
    rw [hrel, hr]
    rfl
  · show (applyFAux
        (fun args => Except.ok (((almost_flatten (headArr args)).drop i).take (jn - i)))
        (2 * argsSize [data] + 1) [data]).map
        (fun ds => SliceResult.range ds (jn - i, sz.getLastD 0)) = _
    rw [hr2]
    rfl

theorem get_data_slice_single_vs_range_witness :
    (∃ r, get_data_slice (exNested, [2, 2]) 1 (some 2) =
        .ok (.range r (1, 2)) ∧
      get_data_slice (exNested, [2, 2]) 1 none =
        .ok (.single (r.mapN (fun rows => rows.headD [])) (1, 2))) ∧
    (∃ r2, get_data_slice (exNested, [2, 2]) 1 (some 2) =
      .ok (.range r2 (2 - 1, 2))) := by
  have h := get_data_slice_single_vs_range exNested [2, 2] 1 2 (by omega)
    (NestedAll.node (NListAll.cons (NestedAll.leaf (by decide)) NListAll.nil))
  exact h
